import Mathlib

/-!
Verification of the core algorithms of simple-chat-gpt-cli (src/chatgpt.py)
against its natural-language specification.

Python strings are embedded as Lean `String` where only whole-string
operations occur, and as `List Char` where the algorithms walk the
characters (a Python `str` is a sequence of Unicode code points, which is
exactly what both types model).  Fallible operations return `Option`.
-/

/- ### Splitting and joining on single spaces

Python `text.split(' ')` splits at every single space character and keeps
empty pieces, e.g. `"".split(' ') == ['']` and `"a  b".split(' ') ==
['a', '', 'b']`.  `splitOnSpace` mirrors that behavior on `List Char`. -/

/-- Model of Python `text.split(' ')` on a list of characters. -/
def splitOnSpace : List Char → List (List Char)
  | [] => [[]]
  | c :: cs =>
    if c = ' ' then [] :: splitOnSpace cs
    else
      match splitOnSpace cs with
      | w :: ws => (c :: w) :: ws
      | [] => [[c]]

/-- Joining word lists back with single spaces (the inverse of `splitOnSpace`,
used to state the token-preservation property of the wrapper). -/
def joinSpace : List (List Char) → List Char
  | [] => []
  | [w] => w
  | w :: x :: ws => w ++ ' ' :: joinSpace (x :: ws)

/- ### Visual length of truecolor text (src/chatgpt.py lines 196-198)

`len_truecolor` measures a string after deleting every match of the regex
`\x1b\[([\d;]*)([A-Za-z])` (re.sub with the empty replacement).  The scanner
below removes exactly the non-overlapping leftmost matches: an ESC followed
by a literal bracket, a run of digits or semicolons, and one ASCII letter.
Since each match consumes at least one character, a fuel counter equal to
the length of the input bounds the recursion. -/

/-- Is the character allowed in the parameter part `[\d;]*` of the pattern. -/
def isAnsiParam (c : Char) : Bool := c.isDigit || c = ';'

/-- Is the character an ASCII letter `[A-Za-z]`, the final byte of the pattern. -/
def isAnsiFinal (c : Char) : Bool :=
  ('A' ≤ c && c ≤ 'Z') || ('a' ≤ c && c ≤ 'z')

/-- Consume `[\d;]*` followed by one ASCII letter; return the rest on success.
Greedy matching is unambiguous here because no letter is a digit or `;`. -/
def afterAnsiSeq : List Char → Option (List Char)
  | [] => none
  | c :: cs =>
    if isAnsiParam c then afterAnsiSeq cs
    else if isAnsiFinal c then some cs
    else none

/-- Worker for `strip_truecolor`; the fuel argument only bounds the recursion
(each step consumes at least one input character, so fuel = length suffices). -/
def stripTruecolorFuel : Nat → List Char → List Char
  | 0, _ => []
  | _, [] => []
  | fuel + 1, c :: cs =>
    if c = '\x1b' then
      match cs with
      | '[' :: rest =>
        match afterAnsiSeq rest with
        | some r => stripTruecolorFuel fuel r
        | none => c :: stripTruecolorFuel fuel cs
      | _ => c :: stripTruecolorFuel fuel cs
    else c :: stripTruecolorFuel fuel cs

/-- Model of `TRUECOLOR_PATTERN.sub('', s)` (src/chatgpt.py line 198). -/
def strip_truecolor (l : List Char) : List Char := stripTruecolorFuel l.length l

/-- Model of `len_truecolor` (src/chatgpt.py lines 197-198): the length of the
string with all ANSI escape sequences removed. -/
def len_truecolor (l : List Char) : Nat := (strip_truecolor l).length

/- ### The text wrapper (src/chatgpt.py lines 216-235, `wrap_truecolor_text`)

The Python loop keeps an accumulator list `wrapped_text`, a current `line`,
and appends `' ' + word` to the line while
`len_truecolor(line) + len_truecolor(word) < max_width`; otherwise it
flushes the line.  (The loop also assigns a local variable `begin` on the
first flush; that variable is never used afterwards, so it is not
modelled.)  After the loop the final line is appended and empty lines are
filtered out. -/

/-- The `for word in words[1:]` loop of `wrap_truecolor_text`, with the
accumulator `acc` playing the role of `wrapped_text` and the trailing
`wrapped_text.append(line)` included in the base case. -/
def wrapLoop (max_width : Nat) (acc : List (List Char)) (line : List Char) :
    List (List Char) → List (List Char)
  | [] => acc ++ [line]
  | w :: ws =>
    if len_truecolor line + len_truecolor w < max_width then
      wrapLoop max_width acc (line ++ ' ' :: w) ws
    else
      wrapLoop max_width (acc ++ [line]) w ws

/-- Model of `wrap_truecolor_text(text, width_box, pos)` (src/chatgpt.py
lines 216-235).  The `pos` argument is accepted and, as in the source, has
no effect on the result. -/
def wrap_truecolor_text (text : List Char) (width_box : Nat × Nat) (pos : Nat) :
    List (List Char) :=
  let words := splitOnSpace text
  match words with
  | [] => []    -- unreachable: splitOnSpace never returns an empty list
  | [w] => [w]  -- `if len(words) == 1: return words`
  | w :: ws =>
    let max_width := width_box.2 - width_box.1
    (wrapLoop max_width [] w ws).filter (fun l => !l.isEmpty)

/- ### Levenshtein distance (src/chatgpt.py lines 244-263)

The source fills a `(len1+1) x (len2+1)` dynamic-programming matrix
`prefix_matrix` row by row and returns its bottom-right entry.  Entry
`[i][j]` satisfies exactly the recurrence below (`[0][j] = j`,
`[i][0] = i`, and the three-way minimum with a substitution cost that
compares `s1[i-1]` with `s2[j-1]`), so `levMatrix s1 s2 i j` is the value
of `prefix_matrix[i][j]`. -/

/-- Substitution cost of cell `[i+1][j+1]`: compares `s1[i]` with `s2[j]`. -/
def levSubCost (s1 s2 : List Char) (i j : Nat) : Nat :=
  if s1.get? i = s2.get? j then 0 else 1

/-- The defining recurrence of `prefix_matrix` in `levenshtein_dist`. -/
def levMatrix (s1 s2 : List Char) : Nat → Nat → Nat
  | 0, j => j
  | i + 1, 0 => i + 1
  | i + 1, j + 1 =>
    min (levMatrix s1 s2 i (j + 1) + 1)
      (min (levMatrix s1 s2 (i + 1) j + 1)
        (levMatrix s1 s2 i j + levSubCost s1 s2 i j))
termination_by i j => i + j

/-- Model of `levenshtein_dist` (src/chatgpt.py lines 244-263), including the
early returns for empty arguments. -/
def levenshtein_dist (s1 s2 : String) : Nat :=
  if s1.length = 0 then s2.length
  else if s2.length = 0 then s1.length
  else levMatrix s1.data s2.data s1.data.length s2.data.length

/- ### The command table and fuzzy matcher (src/chatgpt.py lines 380-412)

`commands` is a Python dict from command name to help text; dicts iterate
in insertion order, so the matcher scans the names in the order written in
the source.  Only the names matter to the matcher, so the help strings
(which embed configured colors) are not modelled. -/

/-- The keys of the `commands` dict (src/chatgpt.py lines 380-389), in
insertion order. -/
def commandNames : List String :=
  ["exit", "help", "clip", "prompt new", "prompt list", "prompt load",
   "save", "chat new", "chat list", "chat load"]

/-- `LEV_DIST_CUTOFF = 6` (src/chatgpt.py line 393). -/
def LEV_DIST_CUTOFF : Nat := 6

/-- `LONGEST_PROMPT_NAME` (src/chatgpt.py line 395): `0` when no prompts are
saved, otherwise the maximum saved-prompt-name length.  The saved prompt
names are read from disk at startup, so they are a parameter here.  The fold
with initial value `0` equals Python `max` on a nonempty list of lengths. -/
def LONGEST_PROMPT_NAME (prompt_names : List String) : Nat :=
  match prompt_names with
  | [] => 0
  | _ => (prompt_names.map String.length).foldl max 0

/-- `LONGEST_COMMAND_NAME` (src/chatgpt.py line 396):
`max(commands.keys(), key=len)`.  Python `max` keeps the current candidate
on ties, replacing it only when a strictly longer key arrives, so the first
key of maximal length wins. -/
def LONGEST_COMMAND_NAME : String :=
  match commandNames with
  | [] => ""
  | c :: cs => cs.foldl (fun best k => if best.length < k.length then k else best) c

/-- `SIMILAR_COMMAND_LENGTH_CUTOFF` (src/chatgpt.py line 397). -/
def SIMILAR_COMMAND_LENGTH_CUTOFF (prompt_names : List String) : Nat :=
  LONGEST_COMMAND_NAME.length + LONGEST_PROMPT_NAME prompt_names

/-- Model of `find_similar_command_name` (src/chatgpt.py lines 399-412).
The `for` loop builds the list of `(command_name, dist)` pairs whose
distance is below the cutoff, in iteration order; `min(distances,
key=lambda c: c[1])` is the fold that replaces the candidate only on a
strictly smaller distance, so the first minimum wins. -/
def find_similar_command_name (prompt_names : List String) (user_input : String) :
    String :=
  if SIMILAR_COMMAND_LENGTH_CUTOFF prompt_names ≤ user_input.length then ""
  else
    let distances :=
      (commandNames.map (fun c => (c, levenshtein_dist user_input c))).filter
        (fun p => p.2 < LEV_DIST_CUTOFF)
    match distances with
    | [] => ""
    | p :: ps =>
      let minimum := ps.foldl (fun best q => if q.2 < best.2 then q else best) p
      if minimum.2 = 0 then "" else minimum.1

/-- Declarative reading of "pick the one with minimum distance; ties broken
by first-seen iteration order" from the specification: the head of the list
wins a tie against the minimum of the rest. -/
def pickMin {α : Type} (f : α → Nat) : List α → Option α
  | [] => none
  | x :: xs =>
    match pickMin f xs with
    | none => some x
    | some m => if f x ≤ f m then some x else some m

/-- The fuzzy-matcher contract as the specification words it: collect the
qualifying commands (distance strictly below the threshold), return no
suggestion if none qualify or the minimum distance is `0`, otherwise the
first-seen command of minimum distance. -/
def fuzzy_suggestion_spec (user_input : String) : String :=
  let qualifying :=
    commandNames.filter (fun c => levenshtein_dist user_input c < LEV_DIST_CUTOFF)
  match pickMin (levenshtein_dist user_input) qualifying with
  | none => ""
  | some c => if levenshtein_dist user_input c = 0 then "" else c

/- ### Conversation state (src/chatgpt.py lines 500-520, 560-591)

A message is a role/content pair; the conversation is the mutable global
list `messages`, created as a single empty system message. -/

/-- One chat message. -/
structure Message where
  role : String
  content : String
deriving DecidableEq, Repr

/-- Model of `apply_prompt_to_messages` (src/chatgpt.py lines 507-512) as the
caller observes it.  The loop overwrites the content of the first
`system`-role message in place and returns.  When no `system` message
exists, the final statement rebinds the function-local name `messages` to a
new list; that rebinding never reaches the caller, so the conversation is
returned unchanged in that case. -/
def apply_prompt_to_messages : List Message → String → List Message
  | [], _ => []
  | m :: ms, p =>
    if m.role = "system" then { m with content := p } :: ms
    else m :: apply_prompt_to_messages ms p

/-- `messages = [{'role': 'system', 'content': ''}]` (src/chatgpt.py line 520). -/
def initialMessages : List Message := [⟨"system", ""⟩]

/-- The conversation-mutating outcomes of the `prompt new` and `prompt load`
dispatch branches (src/chatgpt.py lines 560-591).  `promptNew b p`: the user
optionally confirms starting a new chat (`messages = []`, line 567) and then
enters prompt `p`, which is applied via `apply_prompt_to_messages`.
`promptLoadNew`: in `prompt load`, confirming `Start new chat?` empties the
conversation and skips the load (lines 584-585).  `promptLoad p`: `prompt
load` applies the loaded prompt `p` (line 590). -/
inductive PromptOp where
  | promptNew (startNewChat : Bool) (prompt : String)
  | promptLoadNew
  | promptLoad (prompt : String)

/-- Effect of one `prompt new` / `prompt load` interaction on the
conversation. -/
def stepPromptOp (msgs : List Message) : PromptOp → List Message
  | .promptNew startNewChat p =>
    apply_prompt_to_messages (if startNewChat then [] else msgs) p
  | .promptLoadNew => []
  | .promptLoad p => apply_prompt_to_messages msgs p

/-- Conversation after a sequence of `prompt new` / `prompt load`
interactions, starting from the initial conversation. -/
def runPromptOps (ops : List PromptOp) : List Message :=
  ops.foldl stepPromptOp initialMessages

/- ### The streaming renderer (src/chatgpt.py lines 445-448, 650-688)

One assistant turn: the cursor starts at `START_CURSOR` after the left pad
is printed, and every streamed chunk is processed by the body of the
`for chunk in response` loop.  The virtual cursor is an `Int`, as in the
source: `END_CURSOR = term_width - 7` can be negative for narrow
configured widths, so the comparison must not truncate. -/

/-- `START_CURSOR = 7` (src/chatgpt.py line 445). -/
def START_CURSOR : Int := 7

/-- The left pad printed by `print_response_lpad` (src/chatgpt.py lines
447-448): `' ' * START_CURSOR`. -/
def responseLpad : List Char := List.replicate 7 ' '

/-- One parsed `chunk['choices'][0]['delta']` object: it may carry a `role`
field, a `content` field, both, or neither. -/
structure StreamChunk where
  role : Option String
  content : Option (List Char)
deriving DecidableEq, Repr

/-- Renderer state inside one assistant turn: the virtual cursor, the
`collected_messages` accumulator, and everything printed so far. -/
structure RenderState where
  cursor : Int
  collected : List (List Char)
  printed : List Char
deriving DecidableEq, Repr

/-- State at the start of a turn (src/chatgpt.py lines 650-657): cursor at
`START_CURSOR`, empty accumulator, left pad printed. -/
def initRenderState : RenderState := ⟨START_CURSOR, [], responseLpad⟩

/-- Model of the body of the streaming loop (src/chatgpt.py lines 658-683)
for one chunk.  A chunk whose delta has a `role` field is skipped
(`if "role" in chunk_delta: continue`); a chunk with neither field does
nothing.  For a content chunk: the raw content is appended to
`collected_messages` first; then, if the content contains a space and the
cursor is beyond `end_cursor`, a newline plus the left pad is printed, the
first character of the content is dropped and the cursor reset; the cursor
advances by the printed length; and a contained newline resets the cursor
and prints the left pad after the content. -/
def process_chunk (end_cursor : Int) (st : RenderState) (ch : StreamChunk) :
    RenderState :=
  match ch.role with
  | some _ => st
  | none =>
    match ch.content with
    | none => st
    | some c0 =>
      let collected := st.collected ++ [c0]
      if ' ' ∈ c0 ∧ st.cursor > end_cursor then
        let c := c0.drop 1
        if '\n' ∈ c then
          ⟨START_CURSOR, collected, st.printed ++ '\n' :: responseLpad ++ c ++ responseLpad⟩
        else
          ⟨START_CURSOR + c.length, collected, st.printed ++ '\n' :: responseLpad ++ c⟩
      else
        if '\n' ∈ c0 then
          ⟨START_CURSOR, collected, st.printed ++ c0 ++ responseLpad⟩
        else
          ⟨st.cursor + c0.length, collected, st.printed ++ c0⟩

/-- Renderer state at end of stream, with `end_cursor` standing for the
configuration-dependent `END_CURSOR`. -/
def renderTurn (end_cursor : Int) (chunks : List StreamChunk) : RenderState :=
  chunks.foldl (process_chunk end_cursor) initRenderState

/-- `last_response = ''.join(collected_messages)` (src/chatgpt.py line 685):
the assistant message content recorded at end of stream. -/
def lastResponse (end_cursor : Int) (chunks : List StreamChunk) : List Char :=
  (renderTurn end_cursor chunks).collected.flatten

/-- The content field of a chunk that is not a role announcement. -/
def chunkContentIfNotRole (ch : StreamChunk) : Option (List Char) :=
  match ch.role with
  | some _ => none
  | none => ch.content

/-- Removal of a leading space, as the claim words the wrap action ("strips
the fragment's leading space"): a fragment that does not start with a space
is left intact. -/
def strip_leading_space (c : List Char) : List Char :=
  match c with
  | ' ' :: rest => rest
  | _ => c

/-- The renderer step as claim C8 describes it, differing from
`process_chunk` only in the wrap action: the claim says the fragment's
leading space is stripped, where the source drops the first character
whatever it is. -/
def renderer_step_claim (end_cursor : Int) (st : RenderState) (c0 : List Char) :
    RenderState :=
  let collected := st.collected ++ [c0]
  if ' ' ∈ c0 ∧ st.cursor > end_cursor then
    let c := strip_leading_space c0
    if '\n' ∈ c then
      ⟨START_CURSOR, collected, st.printed ++ '\n' :: responseLpad ++ c ++ responseLpad⟩
    else
      ⟨START_CURSOR + c.length, collected, st.printed ++ '\n' :: responseLpad ++ c⟩
  else
    if '\n' ∈ c0 then
      ⟨START_CURSOR, collected, st.printed ++ c0 ++ responseLpad⟩
    else
      ⟨st.cursor + c0.length, collected, st.printed ++ c0⟩

/-- The renderer step as claim C8 must be amended: identical to the claimed
step except that the wrap action drops the fragment's first character
(which is the leading space exactly when the fragment starts with one). -/
def renderer_step_amended (end_cursor : Int) (st : RenderState) (c0 : List Char) :
    RenderState :=
  let collected := st.collected ++ [c0]
  if ' ' ∈ c0 ∧ st.cursor > end_cursor then
    let c := c0.drop 1
    if '\n' ∈ c then
      ⟨START_CURSOR, collected, st.printed ++ '\n' :: responseLpad ++ c ++ responseLpad⟩
    else
      ⟨START_CURSOR + c.length, collected, st.printed ++ '\n' :: responseLpad ++ c⟩
  else
    if '\n' ∈ c0 then
      ⟨START_CURSOR, collected, st.printed ++ c0 ++ responseLpad⟩
    else
      ⟨st.cursor + c0.length, collected, st.printed ++ c0⟩

/- ### The wrapper algorithm as the specification words it (claim C6)

The specification describes the packing loop directly: start a line with
the first word; append a subsequent word when appending `' ' + word` keeps
the visually-measured line length strictly under `end_column -
start_column`; otherwise flush and start a new line with that word; flush
the final line; drop empty lines. -/

/-- Packing loop with the condition exactly as claim C6 states it: append
`word` when the measured length of `line + ' ' + word` stays strictly under
the window width. -/
def wrapClaimLines (max_width : Nat) (line : List Char) :
    List (List Char) → List (List Char)
  | [] => [line]
  | w :: ws =>
    if len_truecolor (line ++ ' ' :: w) < max_width then
      wrapClaimLines max_width (line ++ ' ' :: w) ws
    else
      line :: wrapClaimLines max_width w ws

/-- The wrapper as claim C6 describes it. -/
def wrap_spec_claim (text : List Char) (width_box : Nat × Nat) (_pos : Nat) :
    List (List Char) :=
  match splitOnSpace text with
  | [] => []
  | [w] => [w]
  | w :: ws =>
    (wrapClaimLines (width_box.2 - width_box.1) w ws).filter (fun l => !l.isEmpty)

/-- Packing loop with the amended condition: append `word` when the sum of
the measured lengths of the line and the word — not counting the joining
space — is strictly under the window width. -/
def wrapAmendedLines (max_width : Nat) (line : List Char) :
    List (List Char) → List (List Char)
  | [] => [line]
  | w :: ws =>
    if len_truecolor line + len_truecolor w < max_width then
      wrapAmendedLines max_width (line ++ ' ' :: w) ws
    else
      line :: wrapAmendedLines max_width w ws

/-- The wrapper as claim C6 must be amended: the separating space is not
counted when deciding whether a word still fits. -/
def wrap_spec_amended (text : List Char) (width_box : Nat × Nat) (_pos : Nat) :
    List (List Char) :=
  match splitOnSpace text with
  | [] => []
  | [w] => [w]
  | w :: ws =>
    (wrapAmendedLines (width_box.2 - width_box.1) w ws).filter (fun l => !l.isEmpty)

/-- Whitespace-delimited tokens of a text: split at spaces, drop the empty
pieces.  Used to state that the wrapper loses and duplicates no words. -/
def spaceTokens (l : List Char) : List (List Char) :=
  (splitOnSpace l).filter (fun w => !w.isEmpty)

/- ### Chat persistence (src/chatgpt.py lines 315-343)

`save_chat` serializes the message list with `json.dump` (default options:
`ensure_ascii=True`, separators `', '` and `': '`, dict keys in insertion
order, which is `role` then `content` for every message this program
builds) into `<name>.chat`, one line with no trailing newline.  `load_chat`
reads the first line of the file with `readline()` and parses it with
`json.loads`.  The serializer below follows CPython json.encoder
(`py_encode_basestring_ascii`); the parser models `json.loads` restricted
to the grammar the serializer emits — `json.loads` itself is more
permissive (arbitrary whitespace, any key order, lone surrogate escapes),
and the two agree on every string `dump_messages` produces. -/

/-- Lower-case hex digit of a value below 16. -/
def hexDigit (n : Nat) : Char :=
  if n < 10 then Char.ofNat (48 + n) else Char.ofNat (87 + n)

/-- Four-digit lower-case hex rendering of a value below 0x10000, as in the
CPython `'\\u%04x'` format. -/
def hex4 (n : Nat) : List Char :=
  [hexDigit (n / 4096 % 16), hexDigit (n / 256 % 16), hexDigit (n / 16 % 16),
   hexDigit (n % 16)]

/-- CPython `py_encode_basestring_ascii` escape of one character: the named
short escapes, printable ASCII verbatim, `\uXXXX` for everything else, with
a surrogate pair for code points beyond the basic multilingual plane. -/
def escapeChar (c : Char) : List Char :=
  if c = '\\' then ['\\', '\\']
  else if c = '"' then ['\\', '"']
  else if c = '\x08' then ['\\', 'b']
  else if c = '\x0c' then ['\\', 'f']
  else if c = '\n' then ['\\', 'n']
  else if c = '\r' then ['\\', 'r']
  else if c = '\t' then ['\\', 't']
  else if 0x20 ≤ c.toNat ∧ c.toNat ≤ 0x7e then [c]
  else if c.toNat < 0x10000 then '\\' :: 'u' :: hex4 c.toNat
  else
    let v := c.toNat - 0x10000
    ('\\' :: 'u' :: hex4 (0xD800 + v / 1024)) ++
      ('\\' :: 'u' :: hex4 (0xDC00 + v % 1024))

/-- JSON escape of a whole string body. -/
def escapeString : List Char → List Char
  | [] => []
  | c :: cs => escapeChar c ++ escapeString cs

/-- The characters between the opening brace and the role value:
`"role": "` (with the `': '` key separator `json.dump` uses). -/
def ROLE_KEY : List Char := ['"', 'r', 'o', 'l', 'e', '"', ':', ' ', '"']

/-- The characters between the role value and the content value:
`, "content": "` (with the `', '` item separator and `': '` key
separator `json.dump` uses). -/
def CONTENT_KEY : List Char :=
  [',', ' ', '"', 'c', 'o', 'n', 't', 'e', 'n', 't', '"', ':', ' ', '"']

/-- `json.dump` rendering of one message object:
`{"role": <role>, "content": <content>}`, the keys in insertion order. -/
def dumpMessage (m : Message) : List Char :=
  '{' :: ROLE_KEY ++ escapeString m.role.data ++ '"' :: CONTENT_KEY
    ++ escapeString m.content.data ++ ['"', '}']

/-- The `', '`-separated rendering of the second and later array elements. -/
def dumpMessagesTail : List Message → List Char
  | [] => []
  | m :: ms => ',' :: ' ' :: dumpMessage m ++ dumpMessagesTail ms

/-- `json.dump(messages, outfile)` (src/chatgpt.py line 338): the full file
content written by `save_chat`. -/
def dump_messages : List Message → List Char
  | [] => ['[', ']']
  | m :: ms => '[' :: dumpMessage m ++ dumpMessagesTail ms ++ [']']

/-- Value of one hex digit, either case. -/
def parseHexDigit (c : Char) : Option Nat :=
  if '0' ≤ c ∧ c ≤ '9' then some (c.toNat - 48)
  else if 'a' ≤ c ∧ c ≤ 'f' then some (c.toNat - 87)
  else if 'A' ≤ c ∧ c ≤ 'F' then some (c.toNat - 55)
  else none

/-- Value of a four-hex-digit escape payload. -/
def parseHexQuad (a b c d : Char) : Option Nat :=
  match parseHexDigit a, parseHexDigit b, parseHexDigit c, parseHexDigit d with
  | some x, some y, some z, some w => some (x * 4096 + y * 256 + z * 16 + w)
  | _, _, _, _ => none

/-- The single-character short escapes `json.loads` accepts. -/
def escCharOf (e : Char) : Option Char :=
  if e = '"' then some '"'
  else if e = '\\' then some '\\'
  else if e = '/' then some '/'
  else if e = 'b' then some '\x08'
  else if e = 'f' then some '\x0c'
  else if e = 'n' then some '\n'
  else if e = 'r' then some '\r'
  else if e = 't' then some '\t'
  else none

/-- Parse a JSON string body up to and including the closing quote,
returning the decoded characters and the remaining input.  A high-surrogate
escape must be followed by a low-surrogate escape and the pair is combined
into one code point, as `json.loads` does.  (A lone surrogate escape is
rejected here; `json.loads` would produce a lone-surrogate string, which no
`Char` can carry and which the serializer never emits.) -/
def parseStringBody (l : List Char) : Option (List Char × List Char) :=
  match l with
  | [] => none
  | '"' :: rest => some ([], rest)
  | '\\' :: 'u' :: a :: b :: c :: d :: rest =>
    (match parseHexQuad a b c d with
     | none => none
     | some n =>
       if n < 0xD800 ∨ 0xE000 ≤ n then
         match parseStringBody rest with
         | some (s, r) => some (Char.ofNat n :: s, r)
         | none => none
       else if n < 0xDC00 then
         match rest with
         | '\\' :: 'u' :: e :: f :: g :: h :: rest2 =>
           (match parseHexQuad e f g h with
            | none => none
            | some lo =>
              if 0xDC00 ≤ lo ∧ lo < 0xE000 then
                match parseStringBody rest2 with
                | some (s, r) =>
                  some (Char.ofNat (0x10000 + (n - 0xD800) * 1024 + (lo - 0xDC00)) :: s, r)
                | none => none
              else none)
         | _ => none
       else none)
  | '\\' :: e :: rest =>
    (match escCharOf e with
     | some ec =>
       match parseStringBody rest with
       | some (s, r) => some (ec :: s, r)
       | none => none
     | none => none)
  | c :: rest =>
    match parseStringBody rest with
    | some (s, r) => some (c :: s, r)
    | none => none
termination_by l.length
decreasing_by all_goals simp <;> omega

/-- Parse one `{"role": <string>, "content": <string>}` object, in the exact
layout `json.dump` emits: an opening brace, the role key, a string body,
the content key, a string body and the closing brace. -/
def parseMessage (l : List Char) : Option (Message × List Char) :=
  match l with
  | '{' :: rest =>
    if rest.take 9 = ROLE_KEY then
      match parseStringBody (rest.drop 9) with
      | some (role, rest2) =>
        if rest2.take 14 = CONTENT_KEY then
          match parseStringBody (rest2.drop 14) with
          | some (content, rest4) =>
            (match rest4 with
             | '}' :: rest5 => some (⟨String.mk role, String.mk content⟩, rest5)
             | _ => none)
          | none => none
        else none
      | none => none
    else none
  | _ => none

/-- Parse the `', '`-separated continuation of the array up to the closing
bracket.  The fuel argument bounds the iteration count; every step consumes
at least one input character, so fuel = input length suffices. -/
def parseMessagesTail (fuel : Nat) (l : List Char) :
    Option (List Message × List Char) :=
  match l with
  | ']' :: rest => some ([], rest)
  | ',' :: ' ' :: rest =>
    (match fuel with
     | 0 => none
     | fuel + 1 =>
       match parseMessage rest with
       | some (m, rest2) =>
         (match parseMessagesTail fuel rest2 with
          | some (ms, rest3) => some (m :: ms, rest3)
          | none => none)
       | none => none)
  | _ => none

/-- JSON whitespace, tolerated by `json.loads` after the closing bracket. -/
def isJsonWs (c : Char) : Bool := c = ' ' || c = '\t' || c = '\n' || c = '\r'

/-- Model of `json.loads` on the first line of a chat file: an array of
message objects in the layout `json.dump` emits, followed by nothing but
whitespace. -/
def parse_chat (l : List Char) : Option (List Message) :=
  match l with
  | '[' :: ']' :: rest => if rest.all isJsonWs then some [] else none
  | '[' :: rest =>
    (match parseMessage rest with
     | some (m, rest2) =>
       match parseMessagesTail rest2.length rest2 with
       | some (ms, rest3) => if rest3.all isJsonWs then some (m :: ms) else none
       | none => none
     | none => none)
  | _ => none

/-- Model of Python `file.readline()`: the prefix up to and including the
first newline, or the whole input when it has none. -/
def readline : List Char → List Char
  | [] => []
  | c :: cs => if c = '\n' then [c] else c :: readline cs

/-- The chats directory as the program observes it: file contents by chat
name. -/
def ChatStore : Type := String → Option (List Char)

/-- Model of `save_chat(messages, chat_name)` (src/chatgpt.py lines
332-343): write the `json.dump` serialization as the content of the file
named after the chat. -/
def save_chat (store : ChatStore) (chat_name : String) (messages : List Message) :
    ChatStore :=
  fun n => if n = chat_name then some (dump_messages messages) else store n

/-- Model of `load_chat` via `load_chat_from_name` (src/chatgpt.py lines
315-330): read the first line of the named file and parse it. -/
def load_chat (store : ChatStore) (chat_name : String) : Option (List Message) :=
  match store chat_name with
  | some content => parse_chat (readline content)
  | none => none

/- ### Theorems -/

theorem foldl_process_chunk_collected (end_cursor : Int) (chunks : List StreamChunk) :
    ∀ st : RenderState,
      (chunks.foldl (process_chunk end_cursor) st).collected
        = st.collected ++ chunks.filterMap chunkContentIfNotRole := by
  induction chunks with
  | nil => intro st; simp
  | cons ch chs ih =>
    intro st
    rw [List.foldl_cons, ih]
    have hstep : (process_chunk end_cursor st ch).collected
        = st.collected ++ (chunkContentIfNotRole ch).toList := by
      cases hr : ch.role with
      | some r => simp [process_chunk, chunkContentIfNotRole, hr]
      | none =>
        cases hc : ch.content with
        | none => simp [process_chunk, chunkContentIfNotRole, hr, hc]
        | some c0 =>
          simp only [process_chunk, chunkContentIfNotRole, hr, hc, Option.toList_some]
          split <;> split <;> simp
    rw [hstep]
    cases hr : ch.role <;> cases hc : ch.content <;>
      simp [chunkContentIfNotRole, hr, hc, List.append_assoc]

/-- Claim C1: the assistant message content recorded at end of stream equals
the concatenation, in arrival order, of the content fields of all
non-role-announcement chunks exactly as received; the wrap/strip logic of
the renderer changes only what is printed, never the accumulated text. -/
theorem c1_stream_accumulation (end_cursor : Int) (chunks : List StreamChunk) :
    lastResponse end_cursor chunks
      = (chunks.filterMap chunkContentIfNotRole).flatten := by
  unfold lastResponse renderTurn
  rw [foldl_process_chunk_collected]
  simp [initRenderState]

theorem process_chunk_cursor_ge (end_cursor : Int) (st : RenderState)
    (ch : StreamChunk) (h : START_CURSOR ≤ st.cursor) :
    START_CURSOR ≤ (process_chunk end_cursor st ch).cursor := by
  cases hr : ch.role with
  | some r => simpa [process_chunk, hr] using h
  | none =>
    cases hc : ch.content with
    | none => simpa [process_chunk, hr, hc] using h
    | some c0 =>
      simp only [process_chunk, hr, hc]
      split <;> split <;> simp <;> omega

/-- Claim C10: throughout one assistant turn the virtual cursor never falls
below `START_CURSOR`: it starts there, every reset sets it to exactly
`START_CURSOR`, and every other update adds a fragment length, which is
nonnegative.  The chunk list ranges over every prefix of a stream, so the
bound holds at every intermediate state of the turn. -/
theorem c10_cursor_never_below_start (end_cursor : Int)
    (chunks : List StreamChunk) :
    START_CURSOR ≤ (renderTurn end_cursor chunks).cursor := by
  unfold renderTurn
  have h0 : START_CURSOR ≤ initRenderState.cursor := le_refl _
  generalize initRenderState = st at h0 ⊢
  induction chunks generalizing st with
  | nil => simpa using h0
  | cons ch chs ih =>
    rw [List.foldl_cons]
    exact ih _ (process_chunk_cursor_ge end_cursor st ch h0)

/-- Claim C8, counterexample: on the fragment `"ab "` — which contains a
space but does not start with one — with the cursor beyond `END_CURSOR`,
the source drops the first character `'a'` of the printed fragment, while
the step described by the claim (strip the leading space) would print the
fragment unchanged; printed output and cursor both differ. -/
theorem c8_counterexample :
    process_chunk 10 ⟨20, [], []⟩ ⟨none, some ['a', 'b', ' ']⟩
      ≠ renderer_step_claim 10 ⟨20, [], []⟩ ['a', 'b', ' '] := by
  decide

/-- Claim C8 as amended: the wrap trigger fires exactly when the fragment
contains a space and the cursor exceeds `END_CURSOR`; when it fires, the
renderer emits a line break, reprints the left pad, drops the fragment's
first character (the leading space, when the fragment starts with one) and
resets the cursor to `START_CURSOR`.  Stated as: the source's chunk step is
exactly the amended step, for every state and fragment. -/
theorem c8_amended_wrap_trigger (end_cursor : Int) (st : RenderState)
    (c0 : List Char) :
    process_chunk end_cursor st ⟨none, some c0⟩
      = renderer_step_amended end_cursor st c0 := rfl

/-- Claim C3, evaluation at the failing input: on a conversation with no
`system` message (the empty conversation left by confirming `Start new
chat?` during `prompt new`), applying the prompt `"abc"` leaves the
conversation unchanged instead of inserting the system message at position
0 — the insertion on line 512 rebinds a function-local name and never
reaches the caller. -/
theorem c3_apply_prompt_insertion_lost :
    apply_prompt_to_messages [] "abc" = []
      ∧ ([] : List Message) ≠ [⟨"system", "abc"⟩] := by
  exact ⟨rfl, by decide⟩

/-- Claim C5: input at least as long as the computed cutoff never yields a
suggestion, regardless of content. -/
theorem c5_length_guard (prompt_names : List String) (user_input : String)
    (h : SIMILAR_COMMAND_LENGTH_CUTOFF prompt_names ≤ user_input.length) :
    find_similar_command_name prompt_names user_input = "" := by
  unfold find_similar_command_name
  simp [h]

theorem c5_length_guard_witness :
    SIMILAR_COMMAND_LENGTH_CUTOFF [] ≤ ("aaaaaaaaaaa" : String).length
      ∧ find_similar_command_name [] "aaaaaaaaaaa" = "" :=
  ⟨by decide, c5_length_guard [] "aaaaaaaaaaa" (by decide)⟩

theorem apply_prompt_to_messages_roles (ms : List Message) (p : String) :
    (apply_prompt_to_messages ms p).map Message.role = ms.map Message.role := by
  induction ms with
  | nil => rfl
  | cons m ms ih =>
    simp only [apply_prompt_to_messages]
    split <;> simp [ih]

theorem apply_prompt_to_messages_tail_roles (ms : List Message) (p : String)
    (h : ∀ m ∈ ms.tail, m.role ≠ "system") :
    ∀ m ∈ (apply_prompt_to_messages ms p).tail, m.role ≠ "system" := by
  intro m hm
  have hmap : (apply_prompt_to_messages ms p).tail.map Message.role
      = ms.tail.map Message.role := by
    rw [List.map_tail, List.map_tail, apply_prompt_to_messages_roles]
  have : m.role ∈ (apply_prompt_to_messages ms p).tail.map Message.role :=
    List.mem_map_of_mem Message.role hm
  rw [hmap] at this
  obtain ⟨m2, hm2, hrole⟩ := List.mem_map.mp this
  rw [← hrole]
  exact h m2 hm2

theorem stepPromptOp_tail_roles (msgs : List Message) (op : PromptOp)
    (h : ∀ m ∈ msgs.tail, m.role ≠ "system") :
    ∀ m ∈ (stepPromptOp msgs op).tail, m.role ≠ "system" := by
  cases op with
  | promptNew startNewChat p =>
    cases startNewChat with
    | true => simp [stepPromptOp, apply_prompt_to_messages]
    | false => exact apply_prompt_to_messages_tail_roles msgs p h
  | promptLoadNew => simp [stepPromptOp]
  | promptLoad p => exact apply_prompt_to_messages_tail_roles msgs p h

theorem get_succ_mem_tail {α : Type} (l : List α) (j : Nat) (h : j + 1 < l.length) :
    l.get ⟨j + 1, h⟩ ∈ l.tail := by
  cases l with
  | nil => simp at h
  | cons x t =>
    rw [List.get_cons_succ]
    apply List.get_mem

theorem runPromptOps_tail_roles (ops : List PromptOp) :
    ∀ m ∈ (runPromptOps ops).tail, m.role ≠ "system" := by
  unfold runPromptOps
  have h0 : ∀ m ∈ initialMessages.tail, m.role ≠ "system" := by
    simp [initialMessages]
  generalize initialMessages = msgs at h0 ⊢
  induction ops generalizing msgs with
  | nil => simpa using h0
  | cons op ops ih =>
    rw [List.foldl_cons]
    exact ih _ (stepPromptOp_tail_roles msgs op h0)

/-- Claim C2: starting from the initial conversation, after any sequence of
`prompt new` and `prompt load` interactions the conversation holds at most
one `system`-role message, and any `system`-role message sits at position
0. -/
theorem c2_system_message_invariant (ops : List PromptOp) :
    ((runPromptOps ops).filter (fun m => m.role = "system")).length ≤ 1
      ∧ ∀ (i : Nat) (h : i < (runPromptOps ops).length),
          ((runPromptOps ops).get ⟨i, h⟩).role = "system" → i = 0 := by
  have key := runPromptOps_tail_roles ops
  constructor
  · cases hm : runPromptOps ops with
    | nil => simp
    | cons x t =>
      rw [hm] at key
      have ht : t.filter (fun m => decide (m.role = "system")) = [] := by
        rw [List.filter_eq_nil_iff]
        intro a ha
        simpa using key a ha
      simp only [List.filter_cons]
      split <;> simp [ht]
  · intro i h hrole
    cases i with
    | zero => rfl
    | succ j =>
      exact absurd hrole (key _ (get_succ_mem_tail (runPromptOps ops) j h))

theorem splitOnSpace_ne_nil (l : List Char) : splitOnSpace l ≠ [] := by
  cases l with
  | nil => simp [splitOnSpace]
  | cons c cs =>
    simp only [splitOnSpace]
    split
    · simp
    · split <;> simp

theorem joinSpace_splitOnSpace (l : List Char) : joinSpace (splitOnSpace l) = l := by
  induction l with
  | nil => rfl
  | cons c cs ih =>
    by_cases hc : c = ' '
    · obtain ⟨w, ws, hcs⟩ := List.exists_cons_of_ne_nil (splitOnSpace_ne_nil cs)
      subst hc
      rw [show splitOnSpace (' ' :: cs) = [] :: splitOnSpace cs by simp [splitOnSpace]]
      rw [hcs]
      rw [hcs] at ih
      simp [joinSpace, ih]
    · obtain ⟨w, ws, hcs⟩ := List.exists_cons_of_ne_nil (splitOnSpace_ne_nil cs)
      rw [show splitOnSpace (c :: cs) = (c :: w) :: ws by
        simp [splitOnSpace, hc, hcs]]
      rw [hcs] at ih
      cases ws with
      | nil => simpa [joinSpace] using congrArg (c :: ·) ih
      | cons y ys =>
        simp only [joinSpace] at ih ⊢
        simpa using congrArg (c :: ·) ih

theorem splitOnSpace_append (a b : List Char) :
    splitOnSpace (a ++ ' ' :: b) = splitOnSpace a ++ splitOnSpace b := by
  induction a with
  | nil => simp [splitOnSpace]
  | cons c cs ih =>
    by_cases hc : c = ' '
    · subst hc
      simp [splitOnSpace, ih]
    · obtain ⟨w, ws, hcs⟩ := List.exists_cons_of_ne_nil (splitOnSpace_ne_nil cs)
      rw [hcs] at ih
      simp [splitOnSpace, hc, ih, hcs]

theorem spaceTokens_joinSpace (ls : List (List Char)) :
    spaceTokens (joinSpace ls) = ls.flatMap spaceTokens := by
  match ls with
  | [] => rfl
  | [w] => simp [joinSpace]
  | w :: x :: ws =>
    have ih := spaceTokens_joinSpace (x :: ws)
    simp only [spaceTokens, List.flatMap_cons] at ih
    simp only [joinSpace, spaceTokens, splitOnSpace_append, List.filter_append,
      List.flatMap_cons]
    rw [ih]

theorem flatMap_spaceTokens_filter (ls : List (List Char)) :
    (ls.filter (fun l => !l.isEmpty)).flatMap spaceTokens
      = ls.flatMap spaceTokens := by
  induction ls with
  | nil => rfl
  | cons w ws ih =>
    by_cases hw : w.isEmpty
    · have hw2 : w = [] := by cases w <;> simp_all
      simp [List.filter_cons, hw2, ih, spaceTokens, splitOnSpace]
    · simp [List.filter_cons, hw, ih]

theorem wrapLoop_eq_append (max_width : Nat) (ws : List (List Char)) :
    ∀ (acc : List (List Char)) (line : List Char),
      wrapLoop max_width acc line ws = acc ++ wrapAmendedLines max_width line ws := by
  induction ws with
  | nil => intro acc line; simp [wrapLoop, wrapAmendedLines]
  | cons w ws ih =>
    intro acc line
    simp only [wrapLoop, wrapAmendedLines]
    split
    · exact ih acc (line ++ ' ' :: w)
    · rw [ih (acc ++ [line]) w]
      simp

theorem wrapAmendedLines_ne_nil (max_width : Nat) (ws : List (List Char))
    (line : List Char) : wrapAmendedLines max_width line ws ≠ [] := by
  induction ws generalizing line with
  | nil => simp [wrapAmendedLines]
  | cons w ws ih =>
    simp only [wrapAmendedLines]
    split
    · exact ih _
    · simp

theorem joinSpace_cons_of_ne_nil (line : List Char) (r : List (List Char))
    (h : r ≠ []) : joinSpace (line :: r) = line ++ ' ' :: joinSpace r := by
  cases r with
  | nil => exact absurd rfl h
  | cons x xs => rfl

theorem joinSpace_wrapAmendedLines (max_width : Nat) (ws : List (List Char)) :
    ∀ line : List Char,
      joinSpace (wrapAmendedLines max_width line ws) = joinSpace (line :: ws) := by
  induction ws with
  | nil => intro line; rfl
  | cons w ws ih =>
    intro line
    simp only [wrapAmendedLines]
    split
    · rw [ih (line ++ ' ' :: w)]
      cases ws with
      | nil => simp [joinSpace]
      | cons y ys => simp [joinSpace]
    · have h1 := joinSpace_cons_of_ne_nil line (wrapAmendedLines max_width w ws)
        (wrapAmendedLines_ne_nil max_width ws w)
      have h2 := joinSpace_cons_of_ne_nil line (w :: ws) (List.cons_ne_nil w ws)
      rw [h1, ih w, h2]

/-- Claim C7: joining the wrapper's output lines with single spaces
reproduces the whitespace-delimited token sequence of the input exactly —
no words dropped, none duplicated, in order. -/
theorem c7_wrap_preserves_tokens (text : List Char) (width_box : Nat × Nat)
    (pos : Nat) :
    spaceTokens (joinSpace (wrap_truecolor_text text width_box pos))
      = spaceTokens text := by
  unfold wrap_truecolor_text
  have hjoin := joinSpace_splitOnSpace text
  cases hw : splitOnSpace text with
  | nil => exact absurd hw (splitOnSpace_ne_nil text)
  | cons w ws =>
    cases ws with
    | nil =>
      rw [hw] at hjoin
      simp only []
      rw [show joinSpace [w] = w from rfl]
      rw [show joinSpace [w] = w from rfl] at hjoin
      rw [hjoin]
    | cons x xs =>
      rw [hw] at hjoin
      simp only [wrapLoop_eq_append, List.nil_append]
      rw [spaceTokens_joinSpace, flatMap_spaceTokens_filter,
        ← spaceTokens_joinSpace, joinSpace_wrapAmendedLines, hjoin]

/-- Claim C6, counterexample: with window `(0, 5)` and input `"ab cd"`, the
source appends (`len("ab") + len("cd") = 4 < 5` — the separating space is
not counted) and yields one line `"ab cd"` of visual length 5, while the
claimed condition (appending `' ' + word` keeps the measured length
strictly under `end - start`, i.e. `5 < 5`) would flush and yield the two
lines `"ab"`, `"cd"`. -/
theorem c6_counterexample :
    wrap_truecolor_text ['a', 'b', ' ', 'c', 'd'] (0, 5) 0
      ≠ wrap_spec_claim ['a', 'b', ' ', 'c', 'd'] (0, 5) 0 := by
  decide

/-- Claim C6 as amended: for input with at least two space-separated words,
a subsequent word is appended to the current line exactly when the sum of
the visually-measured lengths of the line and the word — the joining space
not counted — is strictly under `end_column - start_column`; otherwise the
line is flushed and a new line starts with that word; the final line is
flushed and empty lines are dropped. -/
theorem c6_amended_wrap_condition (text : List Char) (width_box : Nat × Nat)
    (pos : Nat) (h : 2 ≤ (splitOnSpace text).length) :
    wrap_truecolor_text text width_box pos = wrap_spec_amended text width_box pos := by
  cases hw : splitOnSpace text with
  | nil => simp [wrap_truecolor_text, wrap_spec_amended, hw]
  | cons w ws =>
    cases ws with
    | nil => simp [wrap_truecolor_text, wrap_spec_amended, hw]
    | cons x xs =>
      simp only [wrap_truecolor_text, wrap_spec_amended, hw]
      rw [wrapLoop_eq_append, List.nil_append]

theorem c6_amended_wrap_condition_witness :
    2 ≤ (splitOnSpace ['a', ' ', 'b']).length
      ∧ wrap_truecolor_text ['a', ' ', 'b'] (0, 80) 0
          = wrap_spec_amended ['a', ' ', 'b'] (0, 80) 0 :=
  ⟨by decide, c6_amended_wrap_condition ['a', ' ', 'b'] (0, 80) 0 (by decide)⟩
theorem foldl_min_eq_pickMin {α : Type} (f : α → Nat) (ps : List α) :
    ∀ p : α,
      pickMin f (p :: ps)
        = some (ps.foldl (fun best q => if f q < f best then q else best) p) := by
  induction ps with
  | nil => intro p; rfl
  | cons q qs ih =>
    intro p
    rw [List.foldl_cons, ← ih]
    cases hqs : pickMin f qs with
    | none =>
      simp only [pickMin, hqs]
      by_cases h1 : f q < f p
      · have h4 : ¬ f p ≤ f q := by omega
        simp [h1, h4]
      · have h4 : f p ≤ f q := by omega
        simp [h1, h4]
    | some m =>
      simp only [pickMin, hqs]
      by_cases h1 : f q < f p
      · have h4 : ¬ f p ≤ f q := by omega
        by_cases h2 : f q ≤ f m
        · simp [h1, h2, h4]
        · have h5 : ¬ f p ≤ f m := by omega
          simp [h1, h2, h5]
      · have h4 : f p ≤ f q := by omega
        by_cases h2 : f q ≤ f m
        · have h3 : f p ≤ f m := by omega
          simp [h1, h2, h3, h4]
        · simp [h1, h2, h4]

theorem pickMin_map {α β : Type} (g : α → β) (f : β → Nat) (l : List α) :
    pickMin f (l.map g) = (pickMin (fun a => f (g a)) l).map g := by
  induction l with
  | nil => rfl
  | cons x xs ih =>
    simp only [List.map_cons, pickMin, ih]
    cases hxs : pickMin (fun a => f (g a)) xs with
    | none => rfl
    | some m =>
      simp only [Option.map_some']
      split_ifs <;> simp

/-- Claim C4: for input shorter than the length cutoff, the fuzzy matcher
returns exactly what the specification describes — the first-seen command of
minimum Levenshtein distance among the commands at distance strictly below
6, and no suggestion when none qualifies or the minimum distance is 0. -/
theorem c4_fuzzy_matcher_matches_spec (prompt_names : List String)
    (user_input : String)
    (h : user_input.length < SIMILAR_COMMAND_LENGTH_CUTOFF prompt_names) :
    find_similar_command_name prompt_names user_input
      = fuzzy_suggestion_spec user_input := by
  unfold find_similar_command_name fuzzy_suggestion_spec
  rw [if_neg (by omega)]
  rw [List.filter_map]
  rw [show ((fun p : String × Nat => decide (p.2 < LEV_DIST_CUTOFF))
        ∘ fun c => (c, levenshtein_dist user_input c))
      = fun c => decide (levenshtein_dist user_input c < LEV_DIST_CUTOFF) from
    funext fun c => rfl]
  cases hq : commandNames.filter
      (fun c => decide (levenshtein_dist user_input c < LEV_DIST_CUTOFF)) with
  | nil => rfl
  | cons q qs =>
    simp only [List.map_cons]
    have hfold := foldl_min_eq_pickMin Prod.snd
      (qs.map (fun c => (c, levenshtein_dist user_input c)))
      (q, levenshtein_dist user_input q)
    rw [show ((q, levenshtein_dist user_input q)
          :: qs.map (fun c => (c, levenshtein_dist user_input c)))
        = (q :: qs).map (fun c => (c, levenshtein_dist user_input c)) from rfl]
      at hfold
    rw [pickMin_map] at hfold
    rw [show (fun a => Prod.snd ((fun c => (c, levenshtein_dist user_input c)) a))
        = levenshtein_dist user_input from rfl] at hfold
    cases hm : pickMin (levenshtein_dist user_input) (q :: qs) with
    | none => rw [hm] at hfold; simp at hfold
    | some c =>
      rw [hm] at hfold
      simp only [Option.map_some', Option.some.injEq] at hfold
      rw [← hfold]

theorem c4_fuzzy_matcher_matches_spec_witness :
    ("ecit" : String).length < SIMILAR_COMMAND_LENGTH_CUTOFF []
      ∧ find_similar_command_name [] "ecit" = fuzzy_suggestion_spec "ecit" :=
  ⟨by decide, c4_fuzzy_matcher_matches_spec [] "ecit" (by decide)⟩

theorem parseStringBody_quote (rest : List Char) :
    parseStringBody ('"' :: rest) = some ([], rest) := by
  rw [parseStringBody.eq_def]
  rfl

theorem parseStringBody_bslash (rest s r : List Char)
    (hrec : parseStringBody rest = some (s, r)) :
    parseStringBody ('\\' :: '\\' :: rest) = some ('\\' :: s, r) := by
  rw [parseStringBody.eq_def]
  simp [hrec, escCharOf]

theorem parseHexDigit_hexDigit (n : Nat) (h : n < 16) :
    parseHexDigit (hexDigit n) = some n := by
  interval_cases n <;> decide

theorem parseHexQuad_hex4 (n : Nat) (h : n < 65536) :
    parseHexQuad (hexDigit (n / 4096 % 16)) (hexDigit (n / 256 % 16))
      (hexDigit (n / 16 % 16)) (hexDigit (n % 16)) = some n := by
  unfold parseHexQuad
  rw [parseHexDigit_hexDigit _ (Nat.mod_lt _ (by omega)),
    parseHexDigit_hexDigit _ (Nat.mod_lt _ (by omega)),
    parseHexDigit_hexDigit _ (Nat.mod_lt _ (by omega)),
    parseHexDigit_hexDigit _ (Nat.mod_lt _ (by omega))]
  simp only [Option.some.injEq]
  omega

theorem char_toNat_valid (c : Char) :
    c.toNat < 55296 ∨ (57343 < c.toNat ∧ c.toNat < 1114112) := by
  have h := c.valid
  rcases h with h | h
  · left
    exact h
  · right
    exact h

theorem parseStringBody_plain (c : Char) (rest s r : List Char) (h1 : c ≠ '"')
    (h2 : c ≠ '\\') (hrec : parseStringBody rest = some (s, r)) :
    parseStringBody (c :: rest) = some (c :: s, r) := by
  rw [parseStringBody.eq_def]
  split
  · simp_all
  · simp_all
  · simp_all
  · simp_all
  · rename_i c2 rest2 heq
    injection heq with e1 e2
    subst e1
    subst e2
    rw [hrec]

theorem parseStringBody_escapeString (s : List Char) :
    ∀ rest : List Char,
      parseStringBody (escapeString s ++ '"' :: rest) = some (s, rest) := by
  induction s with
  | nil => intro rest; exact parseStringBody_quote rest
  | cons c cs ih =>
    intro rest
    rw [show escapeString (c :: cs) = escapeChar c ++ escapeString cs from rfl,
      List.append_assoc]
    unfold escapeChar
    split_ifs with h1 h2 h3 h4 h5 h6 h7 h8 h9
    · subst h1
      simp only [List.cons_append, List.nil_append]
      rw [parseStringBody.eq_def]
      simp [ih rest, escCharOf]
    · subst h2
      simp only [List.cons_append, List.nil_append]
      rw [parseStringBody.eq_def]
      simp [ih rest, escCharOf]
    · subst h3
      simp only [List.cons_append, List.nil_append]
      rw [parseStringBody.eq_def]
      simp [ih rest, escCharOf]
    · subst h4
      simp only [List.cons_append, List.nil_append]
      rw [parseStringBody.eq_def]
      simp [ih rest, escCharOf]
    · subst h5
      simp only [List.cons_append, List.nil_append]
      rw [parseStringBody.eq_def]
      simp [ih rest, escCharOf]
    · subst h6
      simp only [List.cons_append, List.nil_append]
      rw [parseStringBody.eq_def]
      simp [ih rest, escCharOf]
    · subst h7
      simp only [List.cons_append, List.nil_append]
      rw [parseStringBody.eq_def]
      simp [ih rest, escCharOf]
    · simp only [List.cons_append, List.nil_append]
      exact parseStringBody_plain c _ cs rest h2 h1 (ih rest)
    · have hv : c.toNat < 55296 ∨ 57344 ≤ c.toNat := by
        rcases char_toNat_valid c with h | h
        · exact Or.inl h
        · exact Or.inr (by omega)
      simp only [hex4, List.cons_append, List.nil_append]
      rw [parseStringBody.eq_def]
      simp [parseHexQuad_hex4 c.toNat h9, hv, ih rest, Char.ofNat_toNat]
    · have hlt : c.toNat < 1114112 := by
        rcases char_toNat_valid c with h | h
        · omega
        · omega
      have hge : 65536 ≤ c.toNat := by omega
      have hia := parseHexQuad_hex4 (55296 + (c.toNat - 65536) / 1024) (by omega)
      have hib := parseHexQuad_hex4 (56320 + (c.toNat - 65536) % 1024) (by omega)
      have hniA : ¬(55296 + (c.toNat - 65536) / 1024 < 55296) := by omega
      have hniB : ¬(57344 ≤ 55296 + (c.toNat - 65536) / 1024) := by omega
      have hn2 : 55296 + (c.toNat - 65536) / 1024 < 56320 := by omega
      have hloA : 56320 ≤ 56320 + (c.toNat - 65536) % 1024 := by omega
      have hloB : 56320 + (c.toNat - 65536) % 1024 < 57344 := by omega
      simp only [hex4, List.cons_append, List.nil_append, List.append_assoc]
      rw [parseStringBody.eq_def]
      simp [hia, hib, hniA, hniB, hn2, hloA, hloB, ih rest]
      rw [show 65536 + (c.toNat - 65536) / 1024 * 1024 + (c.toNat - 65536) % 1024
          = c.toNat from by omega, Char.ofNat_toNat]

theorem take_drop_key (key tail : List Char) (n : Nat) (h : key.length = n) :
    (key ++ tail).take n = key ∧ (key ++ tail).drop n = tail := by
  subst h
  exact ⟨List.take_left key tail, List.drop_left key tail⟩

theorem parseMessage_dumpMessage (m : Message) (rest : List Char) :
    parseMessage (dumpMessage m ++ rest) = some (m, rest) := by
  simp only [dumpMessage, List.cons_append, List.nil_append, List.append_assoc]
  rw [parseMessage]
  obtain ⟨ht1, hd1⟩ := take_drop_key ROLE_KEY
    (escapeString m.role.data ++ '"' :: (CONTENT_KEY
      ++ (escapeString m.content.data ++ '"' :: '}' :: rest))) 9 (by rfl)
  rw [ht1, if_pos rfl, hd1, parseStringBody_escapeString]
  dsimp only
  obtain ⟨ht2, hd2⟩ := take_drop_key CONTENT_KEY
    (escapeString m.content.data ++ '"' :: '}' :: rest) 14 (by rfl)
  rw [ht2, if_pos rfl, hd2, parseStringBody_escapeString]
  rfl

theorem parseMessagesTail_dump (ms : List Message) :
    ∀ (fuel : Nat) (rest : List Char), ms.length ≤ fuel →
      parseMessagesTail fuel (dumpMessagesTail ms ++ ']' :: rest)
        = some (ms, rest) := by
  induction ms with
  | nil =>
    intro fuel rest h
    rw [show dumpMessagesTail [] ++ ']' :: rest = ']' :: rest from rfl]
    rw [parseMessagesTail]
  | cons m ms ih =>
    intro fuel rest h
    cases fuel with
    | zero => simp at h
    | succ f =>
      simp only [dumpMessagesTail, List.cons_append, List.append_assoc]
      rw [parseMessagesTail]
      simp only [parseMessage_dumpMessage]
      rw [ih f rest (by simpa using h)]

theorem dumpMessagesTail_length (ms : List Message) :
    ms.length ≤ (dumpMessagesTail ms).length := by
  induction ms with
  | nil => simp [dumpMessagesTail]
  | cons m ms ih =>
    simp only [dumpMessagesTail, List.length_cons, List.length_append]
    omega

theorem parse_chat_dump (ms : List Message) :
    parse_chat (dump_messages ms) = some ms := by
  cases ms with
  | nil => rfl
  | cons m ms =>
    obtain ⟨t, ht⟩ : ∃ t, dumpMessage m = '{' :: t := ⟨_, rfl⟩
    have hshape : dump_messages (m :: ms)
        = '[' :: '{' :: (t ++ (dumpMessagesTail ms ++ ']' :: [])) := by
      simp only [dump_messages, ht, List.cons_append, List.append_assoc]
    rw [hshape, parse_chat.eq_def]
    have hm : parseMessage ('{' :: (t ++ (dumpMessagesTail ms ++ ']' :: [])))
        = some (m, dumpMessagesTail ms ++ ']' :: []) := by
      rw [show ('{' :: (t ++ (dumpMessagesTail ms ++ ']' :: [])))
          = dumpMessage m ++ (dumpMessagesTail ms ++ ']' :: []) from by
        rw [ht]; rfl]
      exact parseMessage_dumpMessage m _
    have htail := parseMessagesTail_dump ms
      ((dumpMessagesTail ms).length + 1) [] (by
        have := dumpMessagesTail_length ms
        omega)
    simp [hm, htail, isJsonWs]

theorem newline_not_mem_append {a b : List Char} (ha : '\n' ∉ a)
    (hb : '\n' ∉ b) : '\n' ∉ a ++ b := by
  intro h
  rcases List.mem_append.mp h with h | h
  · exact ha h
  · exact hb h

theorem newline_not_mem_cons {c : Char} {l : List Char} (hc : '\n' ≠ c)
    (hl : '\n' ∉ l) : '\n' ∉ c :: l := by
  intro h
  rcases List.mem_cons.mp h with h | h
  · exact hc h
  · exact hl h

theorem hexDigit_ne_newline (n : Nat) (h : n < 16) : hexDigit n ≠ '\n' := by
  interval_cases n <;> decide

theorem newline_not_mem_hex4 (n : Nat) : '\n' ∉ hex4 n := by
  intro hmem
  simp only [hex4, List.mem_cons, List.not_mem_nil, or_false] at hmem
  rcases hmem with h | h | h | h <;>
    exact hexDigit_ne_newline _ (Nat.mod_lt _ (by omega)) h.symm

theorem newline_not_mem_escapeChar (c : Char) : '\n' ∉ escapeChar c := by
  unfold escapeChar
  split_ifs with h1 h2 h3 h4 h5 h6 h7 h8 h9
  · decide
  · decide
  · decide
  · decide
  · decide
  · decide
  · decide
  · intro hmem
    simp only [List.mem_singleton] at hmem
    exact h5 hmem.symm
  · refine newline_not_mem_cons (by decide) (newline_not_mem_cons (by decide) ?_)
    exact newline_not_mem_hex4 _
  · apply newline_not_mem_append
    · refine newline_not_mem_cons (by decide) (newline_not_mem_cons (by decide) ?_)
      exact newline_not_mem_hex4 _
    · refine newline_not_mem_cons (by decide) (newline_not_mem_cons (by decide) ?_)
      exact newline_not_mem_hex4 _

theorem newline_not_mem_escapeString (s : List Char) :
    '\n' ∉ escapeString s := by
  induction s with
  | nil => simp [escapeString]
  | cons c cs ih =>
    unfold escapeString
    exact newline_not_mem_append (newline_not_mem_escapeChar c) ih

theorem newline_not_mem_dumpMessage (m : Message) : '\n' ∉ dumpMessage m := by
  simp only [dumpMessage, List.cons_append, List.append_assoc]
  refine newline_not_mem_cons (by decide) ?_
  refine newline_not_mem_append (by decide) ?_
  refine newline_not_mem_append (newline_not_mem_escapeString m.role.data) ?_
  refine newline_not_mem_cons (by decide) ?_
  refine newline_not_mem_append (by decide) ?_
  exact newline_not_mem_append (newline_not_mem_escapeString m.content.data)
    (by decide)

theorem newline_not_mem_dumpMessagesTail (ms : List Message) :
    '\n' ∉ dumpMessagesTail ms := by
  induction ms with
  | nil => simp [dumpMessagesTail]
  | cons m ms ih =>
    simp only [dumpMessagesTail, List.cons_append, List.append_assoc]
    refine newline_not_mem_cons (by decide) ?_
    refine newline_not_mem_cons (by decide) ?_
    exact newline_not_mem_append (newline_not_mem_dumpMessage m) ih

theorem newline_not_mem_dump_messages (ms : List Message) :
    '\n' ∉ dump_messages ms := by
  cases ms with
  | nil => decide
  | cons m ms =>
    simp only [dump_messages, List.cons_append, List.append_assoc]
    refine newline_not_mem_cons (by decide) ?_
    refine newline_not_mem_append (newline_not_mem_dumpMessage m) ?_
    exact newline_not_mem_append (newline_not_mem_dumpMessagesTail ms) (by decide)

theorem readline_of_no_newline (l : List Char) (h : '\n' ∉ l) :
    readline l = l := by
  induction l with
  | nil => rfl
  | cons c cs ih =>
    have hc : c ≠ '\n' := by
      intro hc
      subst hc
      exact h (List.mem_cons_self _ _)
    show (if c = '\n' then [c] else c :: readline cs) = c :: cs
    rw [if_neg hc, ih (fun hm => h (List.mem_cons_of_mem c hm))]

/-- Claim C9: saving a conversation under a name and loading by the same
name yields the identical ordered message sequence.  `json.dump` emits one
newline-free line, `readline` therefore reads all of it back, and the
escape/parse cycle is the identity on every role and content string. -/
theorem c9_save_load_roundtrip (store : ChatStore) (chat_name : String)
    (messages : List Message) :
    load_chat (save_chat store chat_name messages) chat_name = some messages := by
  unfold load_chat save_chat
  rw [if_pos rfl]
  dsimp only
  rw [readline_of_no_newline _ (newline_not_mem_dump_messages messages)]
  exact parse_chat_dump messages
